import Mathlib

/-!
Verification of the concurrent multi-source search aggregation engine of
`lncrawl` (file `lncrawl/core/novel_search.py`) against its specification.

The Python module is shallowly embedded below:

* pure helpers of the Python standard library and third-party libraries
  (`str.lower`, `str.title`, `slugify.slugify`,
  `difflib.SequenceMatcher.ratio`) are modelled as executable Lean
  functions on ASCII strings;
* the per-source task `_search_a_site` becomes `searchASite`, acting on an
  explicit `SiteOutcome` that records whether the crawler's generator
  raised at any point (the `try/except` of the source collapses any raise,
  in particular one in the middle of the generator, to the empty list);
* the dispatcher `search_novels` becomes an explicit state transformer on
  an `App` record; the catalog lookup (`urlparse(...).hostname` composed
  with `crawler_list.get`) and the per-crawler behaviour are parameters,
  and the nondeterministic completion order of the thread pool is an
  explicit list parameter that ranges over permutations of the dispatched
  task list in the theorems.
-/

/-- Embeds the `SearchResult` model: one canonical hit produced by a
per-source search task.  Only the fields read by `novel_search.py`
(`title` and `url`) are modelled. -/
structure SearchResult where
  title : String
  url : String
  deriving Repr, DecidableEq

instance : Inhabited SearchResult := ⟨⟨"", ""⟩⟩

/-- Embeds the `CombinedSearchResult` model built by the aggregation step
of `search_novels`: `id` is the slug key of the group, `title` its
representative title and `novels` its members. -/
structure CombinedSearchResult where
  id : String
  title : String
  novels : List SearchResult
  deriving Repr, DecidableEq

/-- A raw hit yielded by a crawler's `search_novel` generator, before the
validation in `_search_a_site`; either field may be empty. -/
structure RawHit where
  title : String
  url : String
  deriving Repr, DecidableEq

/-- Outcome of running one crawler for the fixed query: either the full
finite list of raw hits its generator yields, or an exception raised at
any point of `prepare_crawler` / iteration (collapsed to `err`, since the
`try` block of `_search_a_site` discards all partial results). -/
inductive SiteOutcome where
  | ok (hits : List RawHit)
  | err
  deriving Repr, DecidableEq

/-- Models Python `str.lower` for ASCII strings (used at
`item.title.lower()` in `_search_a_site`): lowercase every character. -/
def pyLower (s : String) : String :=
  (s.toList.map Char.toLower).asString

/-- Helper for `pyTitle`: the boolean records whether the previous
character was alphabetic (for ASCII, Python's notion of a cased
character). -/
def pyTitleAux : Bool → List Char → List Char
  | _, [] => []
  | prevAlpha, c :: cs =>
    if c.isAlpha then
      (if prevAlpha then c.toLower else c.toUpper) :: pyTitleAux true cs
    else
      c :: pyTitleAux false cs

/-- Models Python `str.title` for ASCII strings (used at
`item.title.lower().title()` in `_search_a_site`): the first alphabetic
character of every run of alphabetic characters is uppercased, the rest
are lowercased. -/
def pyTitle (s : String) : String :=
  (pyTitleAux false s.toList).asString

/-- Is the character an ASCII letter or digit? -/
def isAlnum (c : Char) : Bool :=
  c.isAlpha || c.isDigit

/-- Splitter for `slugify`: cut the character list into its maximal runs
of alphanumeric characters (the accumulator holds the current run,
reversed). -/
def slugAux : List Char → List Char → List (List Char)
  | acc, [] => if acc = [] then [] else [acc.reverse]
  | acc, c :: cs =>
    if isAlnum c then slugAux (c :: acc) cs
    else if acc = [] then slugAux [] cs
    else acc.reverse :: slugAux [] cs

/-- Models the external `slugify.slugify` library function for ASCII
input: lowercase, split into maximal alphanumeric words, join the words
with single hyphens (so the slug has no leading or trailing hyphen). -/
def slugify (s : String) : String :=
  (List.intercalate ['-'] (slugAux [] (pyLower s).toList)).asString

/-- Embeds the validation loop of `_search_a_site` (lines 24-29): a raw
hit is kept iff both `url` and `title` are truthy, i.e. non-empty, and the
kept hit's title is replaced by `title.lower().title()`. -/
def normalizeHits (hits : List RawHit) : List SearchResult :=
  hits.filterMap fun h =>
    if h.url ≠ "" ∧ h.title ≠ "" then
      some { title := pyTitle (pyLower h.title), url := h.url }
    else
      none

/-- Embeds `_search_a_site`: on any exception the whole task yields `[]`
(lines 31-35), otherwise the validated, re-titled hits. -/
def searchASite : SiteOutcome → List SearchResult
  | SiteOutcome.ok hits => normalizeHits hits
  | SiteOutcome.err => []

/-- Is `a[i : i+k] = b[j : j+k]` a matching block of size `k`?  Part of
the model of `difflib.SequenceMatcher` (standard library), used by the
ranking step of `search_novels`. -/
def isBlock (a b : List Char) (i j k : Nat) : Bool :=
  decide (i + k ≤ a.length) && decide (j + k ≤ b.length) &&
    decide ((a.drop i).take k = (b.drop j).take k)

/-- Is there any matching block of size `k` between `a` and `b`? -/
def hasBlockOfSize (a b : List Char) (k : Nat) : Bool :=
  (List.range (a.length + 1)).any fun i =>
    (List.range (b.length + 1)).any fun j => isBlock a b i j k

/-- Size of the longest matching block between `a` and `b`, as found by
`SequenceMatcher.find_longest_match` with no junk (the engine compares
titles and queries, far below the 200-character `autojunk` threshold, so
the junk machinery never fires). -/
def maxBlockSize (a b : List Char) : Nat :=
  Nat.findGreatest (fun k => hasBlockOfSize a b k = true) (min a.length b.length)

/-- Start of the longest matching block in `a`: `find_longest_match`
returns, among the blocks of maximal size, the one starting earliest in
`a`. -/
def bestI (a b : List Char) (k : Nat) : Nat :=
  (((List.range (a.length + 1)).find? fun i =>
    (List.range (b.length + 1)).any fun j => isBlock a b i j k)).getD 0

/-- Start of the longest matching block in `b`, among blocks of maximal
size starting at `bestI` in `a`. -/
def bestJ (a b : List Char) (k : Nat) : Nat :=
  (((List.range (b.length + 1)).find? fun j =>
    isBlock a b (bestI a b k) j k)).getD 0

/-- Total size of the matching blocks of `get_matching_blocks`: recurse on
the regions left and right of the longest matching block.  The `fuel`
argument only bounds the recursion depth so that the function is
structurally recursive and kernel-evaluable; `a.length + 1` levels always
suffice, because each recursive call strictly decreases `a.length` (the
longest block has size at least 1 in the recursive branch). -/
def totalMatchedFuel : Nat → List Char → List Char → Nat
  | 0, _, _ => 0
  | fuel + 1, a, b =>
    if maxBlockSize a b = 0 then 0
    else
      totalMatchedFuel fuel (a.take (bestI a b (maxBlockSize a b)))
          (b.take (bestJ a b (maxBlockSize a b)))
        + maxBlockSize a b
        + totalMatchedFuel fuel
            (a.drop (bestI a b (maxBlockSize a b) + maxBlockSize a b))
            (b.drop (bestJ a b (maxBlockSize a b) + maxBlockSize a b))

/-- Total number of matched characters between `a` and `b`. -/
def totalMatched (a b : List Char) : Nat :=
  totalMatchedFuel (a.length + 1) a b

/-- Models `difflib.SequenceMatcher(a=sa, b=sb).ratio()` for ASCII
strings: `2 * M / T` where `M` is the total size of the matched blocks
and `T` the total length of both sequences, or `1` when both are empty
(`difflib._calculate_ratio`).  Used at line 107 of `novel_search.py`. -/
def ratio (sa sb : String) : ℚ :=
  if sa.toList.length + sb.toList.length = 0 then 1
  else 2 * (totalMatched sa.toList sb.toList : ℚ)
        / ((sa.toList.length + sb.toList.length : Nat) : ℚ)

/-- Embeds the catalog lookup of lines 56-57 of `novel_search.py`:
`crawler_list.get(urlparse(link).hostname or '')`.  The hostname
extraction of `urllib.parse.urlparse` and the `sources.crawler_list`
catalog are external collaborators and are parameters; crawler classes
are identified by natural numbers. -/
def resolveCrawler (hostname : String → Option String) (crawler_list : String → Option Nat)
    (link : String) : Option Nat :=
  crawler_list ((hostname link).getD "")

/-- Embeds the dedup-and-submit loop of lines 55-64 of `novel_search.py`:
walk the links in order, skip a link whose crawler is unresolved or
already checked, otherwise record the (link, crawler) task and mark the
crawler as checked.  The second argument is the `checked_crawlers` set. -/
def dedupTasks (resolve : String → Option Nat) :
    List String → List Nat → List (String × Nat)
  | [], _ => []
  | link :: links, checked =>
    match resolve link with
    | none => dedupTasks resolve links checked
    | some c =>
      if c ∈ checked then dedupTasks resolve links checked
      else (link, c) :: dedupTasks resolve links (c :: checked)

/-- The value of `app.search_progress` after `completed` of `total` tasks
have been drained: `0` right before the `as_completed` loop (line 69),
and `100 * progress / total_futures` after each completion (line 81). -/
def progressAfter (total : Nat) : Nat → ℚ
  | 0 => 0
  | completed + 1 => 100 * ((completed + 1 : Nat) : ℚ) / (total : ℚ)

/-- The whole sequence of values taken by `app.search_progress` during a
session that drains `total` tasks, initial `0` included. -/
def progressTrace (total : Nat) : List ℚ :=
  (List.range (total + 1)).map (progressAfter total)

/-- Embeds the accumulation of lines 72-78: the tasks, in the order the
thread pool completed them, each contribute their `_search_a_site`
result, appended to `all_results`.  `outcome` gives each submitted link
its crawler's behaviour for the session's query. -/
def collectedResults (outcome : String → SiteOutcome)
    (done : List (String × Nat)) : List SearchResult :=
  done.flatMap fun t => searchASite (outcome t.1)

/-- Embeds the filter of lines 85-92: an item survives iff its title is
truthy and its slug key is longer than 2 characters. -/
def validResults (rs : List SearchResult) : List SearchResult :=
  rs.filter fun r => decide (r.title ≠ "" ∧ 2 < (slugify r.title).length)

/-- Helper for `dedupFirst`: keep the first occurrence of every element
not in `seen`, walking the list in order. -/
def dedupFirstAux : List String → List String → List String
  | _, [] => []
  | seen, k :: ks =>
    if k ∈ seen then dedupFirstAux seen ks
    else k :: dedupFirstAux (k :: seen) ks

/-- First occurrence of every element, in order: the key order of a
Python `dict` built by insertion (lines 84-92 group into `combined`,
whose iteration order at line 95 is key insertion order). -/
def dedupFirst (l : List String) : List String :=
  dedupFirstAux [] l

/-- Comparison used at line 96: `value.sort(key=lambda x: x.url)`.
Python compares strings lexicographically by code point, which is the
lexicographic order on the character lists. -/
def urlLe (a b : SearchResult) : Prop :=
  a.url.toList ≤ b.url.toList

instance : DecidableRel urlLe := fun a b => by
  unfold urlLe; infer_instance

instance : IsTotal SearchResult urlLe :=
  ⟨fun a b => le_total a.url.toList b.url.toList⟩

instance : IsTrans SearchResult urlLe := ⟨fun _ _ _ h h' => le_trans h h'⟩

/-- The members of the group with slug key `key`, sorted by url as at
line 96 (`value.sort(key=lambda x: x.url)`; Python list sort and
`List.insertionSort` are both stable, so the sorted lists agree). -/
def groupOf (rs : List SearchResult) (key : String) : List SearchResult :=
  List.insertionSort urlLe
    ((validResults rs).filter fun r => decide (slugify r.title = key))

/-- Embeds lines 84-103: group the valid results by slug key in key
insertion order, sort each group by url, and build one
`CombinedSearchResult` per group with the first (smallest-url) member's
title as representative (`title=value[0].title`). -/
def groupResults (rs : List SearchResult) : List CombinedSearchResult :=
  (dedupFirst ((validResults rs).map fun r => slugify r.title)).map fun key =>
    { id := key, title := (groupOf rs key).headI.title, novels := groupOf rs key }

/-- The composite sort key of lines 104-109:
`(-len(x.novels), -SequenceMatcher(a=x.title, b=query).ratio())`. -/
def rankKey (query : String) (x : CombinedSearchResult) : ℚ × ℚ :=
  (-((x.novels.length : Nat) : ℚ), -(ratio x.title query))

/-- Lexicographic comparison of two composite keys, as Python compares
tuples. -/
def pairLe (p q : ℚ × ℚ) : Prop :=
  p.1 < q.1 ∨ (p.1 = q.1 ∧ p.2 ≤ q.2)

instance (p q : ℚ × ℚ) : Decidable (pairLe p q) := by
  unfold pairLe; infer_instance

/-- The ranking order of line 104: smaller composite key first. -/
def rankLe (query : String) (x y : CombinedSearchResult) : Prop :=
  pairLe (rankKey query x) (rankKey query y)

instance (query : String) : DecidableRel (rankLe query) := fun x y => by
  unfold rankLe; infer_instance

instance (query : String) : IsTotal CombinedSearchResult (rankLe query) :=
  ⟨fun x y => by
    unfold rankLe pairLe
    rcases lt_trichotomy (rankKey query x).1 (rankKey query y).1 with h | h | h
    · exact Or.inl (Or.inl h)
    · rcases le_total (rankKey query x).2 (rankKey query y).2 with h2 | h2
      · exact Or.inl (Or.inr ⟨h, h2⟩)
      · exact Or.inr (Or.inr ⟨h.symm, h2⟩)
    · exact Or.inr (Or.inl h)⟩

instance (query : String) : IsTrans CombinedSearchResult (rankLe query) :=
  ⟨fun x y z hxy hyz => by
    unfold rankLe pairLe at hxy hyz ⊢
    rcases hxy with h1 | ⟨h1, h1'⟩ <;> rcases hyz with h2 | ⟨h2, h2'⟩
    · exact Or.inl (lt_trans h1 h2)
    · exact Or.inl (h2 ▸ h1)
    · exact Or.inl (h1 ▸ h2)
    · exact Or.inr ⟨h1.trans h2, h1'.trans h2'⟩⟩

/-- Embeds lines 94-110 as one pure function: build the combined groups,
sort them by the composite key and keep the first 10. -/
def aggregate (query : String) (rs : List SearchResult) : List CombinedSearchResult :=
  (List.insertionSort (rankLe query) (groupResults rs)).take 10

/-- Session state: the fields of the `App` object read or written by
`search_novels`. -/
structure App where
  user_input : String
  crawler_links : List String
  search_progress : ℚ
  search_results : List CombinedSearchResult
  deriving Repr, DecidableEq

/-- Embeds `search_novels` (lines 37-110).  `hostname` and `crawler_list`
are the external catalog, `outcome` the behaviour of each submitted link's
crawler for this session's query, and `completed` the order in which the
thread pool drained the tasks — the theorems quantify over every
permutation of the dispatched task list, since `as_completed` yields in
an arbitrary order.  The guard of lines 47-48 returns with the `App`
state untouched. -/
def search_novels (hostname : String → Option String) (crawler_list : String → Option Nat)
    (outcome : String → SiteOutcome) (completed : List (String × Nat)) (app : App) : App :=
  if app.crawler_links = [] ∨ app.user_input = "" then app
  else
    { app with
      search_progress := progressAfter
        (dedupTasks (resolveCrawler hostname crawler_list) app.crawler_links []).length
        completed.length,
      search_results := aggregate app.user_input (collectedResults outcome completed) }

lemma hasBlock_of_max_ne_zero {a b : List Char} (h : maxBlockSize a b ≠ 0) :
    hasBlockOfSize a b (maxBlockSize a b) = true :=
  ((Nat.findGreatest_eq_iff (P := fun k => hasBlockOfSize a b k = true)
      (k := min a.length b.length) (m := maxBlockSize a b)).1 rfl).2.1 h

lemma bestIJ_isBlock {a b : List Char} (h : maxBlockSize a b ≠ 0) :
    isBlock a b (bestI a b (maxBlockSize a b)) (bestJ a b (maxBlockSize a b))
      (maxBlockSize a b) = true := by
  have hP := hasBlock_of_max_ne_zero h
  rw [hasBlockOfSize, List.any_eq_true] at hP
  obtain ⟨i, hi, hanyj⟩ := hP
  rcases hfi : (List.range (a.length + 1)).find? (fun i =>
      (List.range (b.length + 1)).any fun j => isBlock a b i j (maxBlockSize a b))
      with _ | i0
  · exact absurd hanyj (by simpa using List.find?_eq_none.1 hfi i hi)
  · have hi0 := List.find?_some hfi
    have hbi : bestI a b (maxBlockSize a b) = i0 := by
      rw [bestI, hfi]; rfl
    simp only [List.any_eq_true] at hi0
    obtain ⟨j, hj, hblock⟩ := hi0
    rw [← hbi] at hblock
    rcases hfj : (List.range (b.length + 1)).find? (fun j =>
        isBlock a b (bestI a b (maxBlockSize a b)) j (maxBlockSize a b)) with _ | j0
    · exact absurd hblock (by simpa using List.find?_eq_none.1 hfj j hj)
    · have hj0 := List.find?_some hfj
      have hbj : bestJ a b (maxBlockSize a b) = j0 := by
        rw [bestJ, hfj]; rfl
      rw [hbj]; simpa using hj0

lemma isBlock_bounds {a b : List Char} {i j k : Nat} (h : isBlock a b i j k = true) :
    i + k ≤ a.length ∧ j + k ≤ b.length := by
  simp only [isBlock, Bool.and_eq_true, decide_eq_true_eq] at h
  exact ⟨h.1.1, h.1.2⟩

lemma totalMatchedFuel_le : ∀ (fuel : Nat) (a b : List Char),
    totalMatchedFuel fuel a b ≤ a.length ∧ totalMatchedFuel fuel a b ≤ b.length := by
  intro fuel
  induction fuel with
  | zero => intro a b; simp [totalMatchedFuel]
  | succ n ih =>
    intro a b
    simp only [totalMatchedFuel]
    split
    · simp
    · rename_i hK
      obtain ⟨h1, h2⟩ := isBlock_bounds (bestIJ_isBlock hK)
      have hK1 : 1 ≤ maxBlockSize a b := Nat.one_le_iff_ne_zero.2 hK
      obtain ⟨l1, l2⟩ := ih (a.take (bestI a b (maxBlockSize a b)))
          (b.take (bestJ a b (maxBlockSize a b)))
      obtain ⟨r1, r2⟩ := ih (a.drop (bestI a b (maxBlockSize a b) + maxBlockSize a b))
          (b.drop (bestJ a b (maxBlockSize a b) + maxBlockSize a b))
      simp only [List.length_take, List.length_drop] at l1 l2 r1 r2
      constructor <;> omega

lemma totalMatched_le (a b : List Char) :
    totalMatched a b ≤ a.length ∧ totalMatched a b ≤ b.length :=
  totalMatchedFuel_le (a.length + 1) a b

lemma ratio_nonneg (sa sb : String) : 0 ≤ ratio sa sb := by
  unfold ratio
  split
  · norm_num
  · positivity

lemma ratio_le_one (sa sb : String) : ratio sa sb ≤ 1 := by
  unfold ratio
  split
  · norm_num
  · rename_i h
    have hM := totalMatched_le sa.toList sb.toList
    have hpos : (0 : ℚ) < ((sa.toList.length + sb.toList.length : Nat) : ℚ) := by
      exact_mod_cast Nat.pos_of_ne_zero h
    rw [div_le_one hpos]
    have h2 : 2 * totalMatched sa.toList sb.toList
        ≤ sa.toList.length + sb.toList.length := by omega
    calc (2 : ℚ) * (totalMatched sa.toList sb.toList : ℚ)
        = ((2 * totalMatched sa.toList sb.toList : Nat) : ℚ) := by push_cast; ring
      _ ≤ _ := by exact_mod_cast h2

lemma dedupTasks_mem_snd (resolve : String → Option Nat) :
    ∀ (links : List String) (checked : List Nat) (c : Nat),
      c ∈ (dedupTasks resolve links checked).map Prod.snd ↔
        c ∉ checked ∧ ∃ l ∈ links, resolve l = some c := by
  intro links
  induction links with
  | nil => intro checked c; simp [dedupTasks]
  | cons x xs ih =>
    intro checked c
    rcases hres : resolve x with _ | c'
    · simp only [dedupTasks, hres]
      rw [ih]
      constructor
      · rintro ⟨hc, y, hy, hry⟩
        exact ⟨hc, y, List.mem_cons_of_mem _ hy, hry⟩
      · rintro ⟨hc, y, hy, hry⟩
        rcases List.mem_cons.1 hy with rfl | hy
        · rw [hres] at hry; cases hry
        · exact ⟨hc, y, hy, hry⟩
    · by_cases hmem : c' ∈ checked
      · simp only [dedupTasks, hres, if_pos hmem]
        rw [ih]
        constructor
        · rintro ⟨hc, y, hy, hry⟩
          exact ⟨hc, y, List.mem_cons_of_mem _ hy, hry⟩
        · rintro ⟨hc, y, hy, hry⟩
          rcases List.mem_cons.1 hy with rfl | hy
          · rw [hres] at hry
            injection hry with h
            exact absurd (h ▸ hmem) hc
          · exact ⟨hc, y, hy, hry⟩
      · simp only [dedupTasks, hres, if_neg hmem, List.map_cons, List.mem_cons]
        rw [ih]
        constructor
        · rintro (rfl | ⟨hc, y, hy, hry⟩)
          · exact ⟨hmem, x, Or.inl rfl, hres⟩
          · exact ⟨fun h => hc (List.mem_cons_of_mem _ h), y, Or.inr hy, hry⟩
        · rintro ⟨hc, y, hy, hry⟩
          rcases hy with rfl | hy
          · left
            rw [hres] at hry
            injection hry with h
            exact h.symm
          · by_cases hcc : c = c'
            · exact Or.inl hcc
            · refine Or.inr ⟨?_, y, hy, hry⟩
              intro h
              rcases List.mem_cons.1 h with h | h
              · exact hcc h
              · exact hc h

lemma dedupTasks_nodup_snd (resolve : String → Option Nat) :
    ∀ (links : List String) (checked : List Nat),
      ((dedupTasks resolve links checked).map Prod.snd).Nodup := by
  intro links
  induction links with
  | nil => intro checked; simp [dedupTasks]
  | cons x xs ih =>
    intro checked
    rcases hres : resolve x with _ | c'
    · simpa only [dedupTasks, hres] using ih checked
    · by_cases hmem : c' ∈ checked
      · simpa only [dedupTasks, hres, if_pos hmem] using ih checked
      · simp only [dedupTasks, hres, if_neg hmem, List.map_cons, List.nodup_cons]
        refine ⟨fun hx => ?_, ih _⟩
        exact ((dedupTasks_mem_snd resolve xs (c' :: checked) c').1 hx).1
          (List.mem_cons_self _ _)

lemma dedupTasks_first (resolve : String → Option Nat) :
    ∀ (links : List String) (checked : List Nat) (p : String × Nat),
      p ∈ dedupTasks resolve links checked →
        resolve p.1 = some p.2 ∧ p.2 ∉ checked ∧
          links.find? (fun l => resolve l == some p.2) = some p.1 := by
  intro links
  induction links with
  | nil => intro checked p hp; simp [dedupTasks] at hp
  | cons x xs ih =>
    intro checked p hp
    rcases hres : resolve x with _ | c'
    · simp only [dedupTasks, hres] at hp
      obtain ⟨h1, h2, h3⟩ := ih checked p hp
      refine ⟨h1, h2, ?_⟩
      rw [List.find?_cons_of_neg, h3]
      rw [hres]
      simp
    · by_cases hmem : c' ∈ checked
      · simp only [dedupTasks, hres, if_pos hmem] at hp
        obtain ⟨h1, h2, h3⟩ := ih checked p hp
        refine ⟨h1, h2, ?_⟩
        rw [List.find?_cons_of_neg, h3]
        rw [hres]
        simp only [beq_iff_eq, Option.some.injEq]
        intro heq
        exact h2 (heq ▸ hmem)
      · simp only [dedupTasks, hres, if_neg hmem, List.mem_cons] at hp
        rcases hp with rfl | hp
        · refine ⟨hres, hmem, ?_⟩
          rw [List.find?_cons_of_pos]
          rw [hres]
          simp
        · obtain ⟨h1, h2, h3⟩ := ih (c' :: checked) p hp
          refine ⟨h1, fun h => h2 (List.mem_cons_of_mem _ h), ?_⟩
          rw [List.find?_cons_of_neg, h3]
          rw [hres]
          simp only [beq_iff_eq, Option.some.injEq]
          intro heq
          exact h2 (heq ▸ List.mem_cons_self c' checked)

lemma mem_dedupFirstAux :
    ∀ (l seen : List String) (a : String),
      a ∈ dedupFirstAux seen l ↔ a ∉ seen ∧ a ∈ l := by
  intro l
  induction l with
  | nil => intro seen a; simp [dedupFirstAux]
  | cons k ks ih =>
    intro seen a
    by_cases hk : k ∈ seen
    · simp only [dedupFirstAux, if_pos hk]
      rw [ih]
      constructor
      · rintro ⟨ha, hm⟩
        exact ⟨ha, List.mem_cons_of_mem _ hm⟩
      · rintro ⟨ha, hm⟩
        rcases List.mem_cons.1 hm with rfl | hm
        · exact absurd hk ha
        · exact ⟨ha, hm⟩
    · simp only [dedupFirstAux, if_neg hk, List.mem_cons]
      rw [ih]
      constructor
      · rintro (rfl | ⟨ha, hm⟩)
        · exact ⟨hk, Or.inl rfl⟩
        · exact ⟨fun h => ha (List.mem_cons_of_mem _ h), Or.inr hm⟩
      · rintro ⟨ha, rfl | hm⟩
        · exact Or.inl rfl
        · by_cases hak : a = k
          · exact Or.inl hak
          · refine Or.inr ⟨?_, hm⟩
            intro h
            rcases List.mem_cons.1 h with h | h
            · exact hak h
            · exact ha h

lemma mem_dedupFirst (l : List String) (a : String) :
    a ∈ dedupFirst l ↔ a ∈ l := by
  unfold dedupFirst
  rw [mem_dedupFirstAux]
  simp

lemma nodup_dedupFirstAux :
    ∀ (l seen : List String), (dedupFirstAux seen l).Nodup := by
  intro l
  induction l with
  | nil => intro seen; simp [dedupFirstAux]
  | cons k ks ih =>
    intro seen
    by_cases hk : k ∈ seen
    · simpa only [dedupFirstAux, if_pos hk] using ih seen
    · simp only [dedupFirstAux, if_neg hk, List.nodup_cons]
      refine ⟨fun hmem => ?_, ih _⟩
      exact ((mem_dedupFirstAux ks (k :: seen) k).1 hmem).1 (List.mem_cons_self _ _)

lemma nodup_dedupFirst (l : List String) : (dedupFirst l).Nodup :=
  nodup_dedupFirstAux l []

lemma progressAfter_mono (total k : Nat) :
    progressAfter total k ≤ progressAfter total (k + 1) := by
  cases k with
  | zero =>
    simp only [progressAfter]
    positivity
  | succ m =>
    simp only [progressAfter]
    rcases Nat.eq_zero_or_pos total with rfl | hpos
    · norm_num
    · have ht : (0 : ℚ) < (total : ℚ) := by exact_mod_cast hpos
      have hnum : (100 : ℚ) * ((m + 1 : Nat) : ℚ) ≤ 100 * ((m + 1 + 1 : Nat) : ℚ) := by
        push_cast
        linarith
      exact div_le_div_of_nonneg_right hnum ht.le

lemma progressTrace_chain (total : Nat) :
    List.Chain' (· ≤ ·) (progressTrace total) := by
  unfold progressTrace
  rw [List.chain'_map, List.chain'_range_succ]
  intro m _
  exact progressAfter_mono total m

lemma progressAfter_total_eq {total : Nat} (h : total ≠ 0) :
    progressAfter total total = 100 := by
  cases total with
  | zero => exact absurd rfl h
  | succ m =>
    simp only [progressAfter]
    rw [mul_div_assoc, div_self, mul_one]
    exact_mod_cast Nat.succ_ne_zero m

lemma groupOf_perm_filter (rs : List SearchResult) (key : String) :
    (groupOf rs key).Perm
      ((validResults rs).filter fun r => decide (slugify r.title = key)) :=
  List.perm_insertionSort _ _

lemma groupOf_sorted (rs : List SearchResult) (key : String) :
    List.Sorted urlLe (groupOf rs key) :=
  List.sorted_insertionSort _ _

lemma groupOf_ne_nil {rs : List SearchResult} {key : String}
    (h : key ∈ (validResults rs).map fun r => slugify r.title) :
    groupOf rs key ≠ [] := by
  rw [List.mem_map] at h
  obtain ⟨r, hr, rfl⟩ := h
  intro hnil
  have hmem : r ∈ groupOf rs (slugify r.title) := by
    rw [groupOf, List.mem_insertionSort]
    exact List.mem_filter.2 ⟨hr, by simp⟩
  rw [hnil] at hmem
  cases hmem

lemma mem_groupResults {rs : List SearchResult} {x : CombinedSearchResult}
    (hx : x ∈ groupResults rs) :
    x.id ∈ (validResults rs).map (fun r => slugify r.title) ∧
      x.novels = groupOf rs x.id ∧ x.title = (groupOf rs x.id).headI.title := by
  rw [groupResults, List.mem_map] at hx
  obtain ⟨key, hkey, rfl⟩ := hx
  exact ⟨(mem_dedupFirst _ _).1 hkey, rfl, rfl⟩

lemma groupResults_ids (rs : List SearchResult) :
    (groupResults rs).map (fun x => x.id) =
      dedupFirst ((validResults rs).map fun r => slugify r.title) := by
  rw [groupResults, List.map_map]
  exact List.map_id _

lemma sorted_head_min {l : List SearchResult} (hs : List.Sorted urlLe l)
    (hne : l ≠ []) : ∀ r ∈ l, l.headI.url.toList ≤ r.url.toList := by
  cases l with
  | nil => exact absurd rfl hne
  | cons a t =>
    intro r hr
    rcases List.mem_cons.1 hr with rfl | hr
    · exact le_refl _
    · exact List.rel_of_sorted_cons hs r hr

lemma collectedResults_filter_err (outcome : String → SiteOutcome) :
    ∀ done : List (String × Nat),
      collectedResults outcome done =
        collectedResults outcome
          (done.filter fun t => decide (outcome t.1 ≠ SiteOutcome.err)) := by
  intro done
  induction done with
  | nil => rfl
  | cons t ts ih =>
    by_cases h : outcome t.1 = SiteOutcome.err
    · have hfil : List.filter (fun t => decide (outcome t.1 ≠ SiteOutcome.err)) (t :: ts)
          = List.filter (fun t => decide (outcome t.1 ≠ SiteOutcome.err)) ts := by
        rw [List.filter_cons]
        simp [h]
      rw [hfil, ← ih]
      simp only [collectedResults, List.flatMap_cons, h, searchASite, List.nil_append]
    · have hfil : List.filter (fun t => decide (outcome t.1 ≠ SiteOutcome.err)) (t :: ts)
          = t :: List.filter (fun t => decide (outcome t.1 ≠ SiteOutcome.err)) ts := by
        rw [List.filter_cons]
        simp [h]
      rw [hfil]
      simp only [collectedResults, List.flatMap_cons]
      exact congrArg (fun l => searchASite (outcome t.1) ++ l) ih

lemma pyTitleAux_length (b : Bool) (l : List Char) :
    (pyTitleAux b l).length = l.length := by
  induction l generalizing b with
  | nil => rfl
  | cons c cs ih =>
    simp only [pyTitleAux]
    split <;> simp [ih]

lemma asString_eq_empty_iff (l : List Char) : l.asString = "" ↔ l = [] := by
  constructor
  · intro h
    have := congrArg String.toList h
    simpa using this
  · intro h
    subst h
    rfl

lemma string_ne_empty_iff_toList (s : String) : s ≠ "" ↔ s.toList ≠ [] := by
  constructor
  · intro h hl
    refine h ?_
    cases s with
    | mk data =>
      simp only [String.toList] at hl
      subst hl
      rfl
  · intro h hs
    subst hs
    exact h rfl

lemma pyTitle_pyLower_ne_empty {s : String} (h : s ≠ "") :
    pyTitle (pyLower s) ≠ "" := by
  unfold pyTitle pyLower
  rw [Ne, asString_eq_empty_iff, ← List.length_eq_zero]
  have : ((s.toList.map Char.toLower).asString).toList = s.toList.map Char.toLower := rfl
  rw [this, pyTitleAux_length, List.length_map, List.length_eq_zero]
  exact (string_ne_empty_iff_toList s).1 h

lemma rankLe_size {query : String} {x y : CombinedSearchResult}
    (h : rankLe query x y) : y.novels.length ≤ x.novels.length := by
  unfold rankLe pairLe rankKey at h
  rcases h with h | ⟨h, _⟩
  · simp only [neg_lt_neg_iff, Nat.cast_lt] at h
    exact le_of_lt h
  · simp only [neg_inj, Nat.cast_inj] at h
    exact le_of_eq h.symm

lemma normalizeHits_eq_map_filter (hits : List RawHit) :
    normalizeHits hits =
      (hits.filter fun h => decide (h.url ≠ "" ∧ h.title ≠ "")).map
        (fun h => { title := pyTitle (pyLower h.title), url := h.url }) := by
  induction hits with
  | nil => rfl
  | cons h hs ih =>
    by_cases hc : h.url ≠ "" ∧ h.title ≠ ""
    · have h1 : normalizeHits (h :: hs)
          = { title := pyTitle (pyLower h.title), url := h.url } :: normalizeHits hs := by
        simp only [normalizeHits, List.filterMap_cons, if_pos hc]
      have h2 : List.filter (fun h => decide (h.url ≠ "" ∧ h.title ≠ "")) (h :: hs)
          = h :: List.filter (fun h => decide (h.url ≠ "" ∧ h.title ≠ "")) hs := by
        rw [List.filter_cons, if_pos (by simpa using hc)]
      rw [h1, h2, List.map_cons, ih]
    · have h1 : normalizeHits (h :: hs) = normalizeHits hs := by
        simp only [normalizeHits, List.filterMap_cons, if_neg hc]
      have h2 : List.filter (fun h => decide (h.url ≠ "" ∧ h.title ≠ "")) (h :: hs)
          = List.filter (fun h => decide (h.url ≠ "" ∧ h.title ≠ "")) hs := by
        rw [List.filter_cons, if_neg (by simpa using hc)]
      rw [h1, h2, ih]

lemma mem_validResults {rs : List SearchResult} {r : SearchResult}
    (h : r ∈ validResults rs) :
    r ∈ rs ∧ r.title ≠ "" ∧ 2 < (slugify r.title).length := by
  unfold validResults at h
  rw [List.mem_filter, decide_eq_true_eq] at h
  exact ⟨h.1, h.2.1, h.2.2⟩

/-- Claim C1 (amended): if the query is empty or the source-reference list
is empty, `search_novels` dispatches no per-source task and returns
immediately, leaving the whole session state — in particular
`search_progress` and `search_results` — unchanged (lines 47-48 are a bare
`return`; the code does not set progress to 100 and does not assign an
empty result list). -/
theorem search_novels_invalid_input_noop
    (hostname : String → Option String) (crawler_list : String → Option Nat)
    (outcome : String → SiteOutcome) (completed : List (String × Nat)) (app : App)
    (h : app.crawler_links = [] ∨ app.user_input = "") :
    search_novels hostname crawler_list outcome completed app = app := by
  unfold search_novels
  rw [if_pos h]

/-- Witness for C1 (amended): a session with an empty query and one link
is left untouched. -/
theorem search_novels_invalid_input_noop_witness :
    ((["https://x.com/a"] : List String) = [] ∨ ("" : String) = "") ∧
    search_novels (fun _ => none) (fun _ => none) (fun _ => SiteOutcome.err) []
        { user_input := "", crawler_links := ["https://x.com/a"],
          search_progress := 5, search_results := [] }
      = { user_input := "", crawler_links := ["https://x.com/a"],
          search_progress := 5, search_results := [] } :=
  ⟨Or.inr rfl,
    search_novels_invalid_input_noop _ _ _ _ _ (Or.inr rfl)⟩

/-- Counterexample to claim C1 as stated: with an empty query, the code
returns early without assigning the result list or the progress, so a
session whose prior progress is 37 and whose prior result list is
non-empty keeps both — the final result list is not empty and the
progress is not 100. -/
theorem search_novels_empty_query_counterexample :
    (search_novels (fun _ => some "x.com") (fun _ => some 0)
        (fun _ => SiteOutcome.ok []) []
        { user_input := "", crawler_links := ["https://x.com/a"],
          search_progress := 37,
          search_results := [{ id := "prev", title := "Prev", novels := [] }]
        }).search_progress ≠ 100 ∧
    (search_novels (fun _ => some "x.com") (fun _ => some 0)
        (fun _ => SiteOutcome.ok [])  []
        { user_input := "", crawler_links := ["https://x.com/a"],
          search_progress := 37,
          search_results := [{ id := "prev", title := "Prev", novels := [] }]
        }).search_results ≠ [] := by
  constructor <;> decide

/-- Claim C2: the dedup-and-submit loop produces exactly one task per
distinct crawler implementation that some link resolves to (no duplicate
crawlers, membership characterisation, count exactly one), and the link
paired with each crawler is the first link of the input list, in input
order, that resolves to that crawler. -/
theorem dedupTasks_one_task_per_crawler
    (resolve : String → Option Nat) (links : List String) (c : Nat) :
    ((dedupTasks resolve links []).map Prod.snd).Nodup ∧
    (c ∈ (dedupTasks resolve links []).map Prod.snd ↔
      ∃ l ∈ links, resolve l = some c) ∧
    ((dedupTasks resolve links []).map Prod.snd).count c
      = (if ∃ l ∈ links, resolve l = some c then 1 else 0) ∧
    (∀ p ∈ dedupTasks resolve links [],
      links.find? (fun l => resolve l == some p.2) = some p.1) := by
  have hnodup := dedupTasks_nodup_snd resolve links []
  have hmem := dedupTasks_mem_snd resolve links []
  refine ⟨hnodup, ?_, ?_, ?_⟩
  · rw [hmem c]
    simp
  · by_cases hex : ∃ l ∈ links, resolve l = some c
    · rw [if_pos hex]
      exact List.count_eq_one_of_mem hnodup ((hmem c).2 ⟨by simp, hex⟩)
    · rw [if_neg hex]
      refine List.count_eq_zero_of_not_mem fun hin => ?_
      exact hex ((hmem c).1 hin).2
  · intro p hp
    exact (dedupTasks_first resolve links [] p hp).2.2

/-- Witness for C2: two links that resolve to the same crawler produce
one task, paired with the first link. -/
theorem dedupTasks_one_task_per_crawler_witness :
    (("l1", 7) ∈ dedupTasks (fun _ => some 7) ["l1", "l2"] []) ∧
    (["l1", "l2"].find? (fun l => (fun _ => (some 7 : Option Nat)) l == some 7)
      = some "l1") := by
  have h := (dedupTasks_one_task_per_crawler (fun _ => some 7) ["l1", "l2"] 7).2.2.2
    ("l1", 7) (by decide)
  exact ⟨by decide, h⟩

/-- Claim C8: the aggregation step is a pure deterministic function of the
collected canonical-result list (in arrival order) and the query: two runs
on equal inputs give identical ordered output.  In the embedding this
holds by construction, because the grouping models the insertion order of
a Python `dict` and both sorts are stable, so `aggregate` is a function of
exactly these two arguments. -/
theorem aggregate_deterministic (q1 q2 : String) (rs1 rs2 : List SearchResult)
    (hq : q1 = q2) (hrs : rs1 = rs2) : aggregate q1 rs1 = aggregate q2 rs2 := by
  subst hq
  subst hrs
  rfl

/-- Witness for C8: two identical runs on a concrete input agree. -/
theorem aggregate_deterministic_witness :
    ("b" : String) = "b" ∧
    aggregate "b" [{ title := "My Book", url := "u" }]
      = aggregate "b" [{ title := "My Book", url := "u" }] :=
  ⟨rfl, aggregate_deterministic "b" "b" _ _ rfl rfl⟩

/-- Claim C9: every canonical result produced by a per-source task has a
non-empty (transformed) title and a non-empty url, and raw hits with an
empty title or url are dropped at creation: the task output on any hit
list equals its output on the list with the invalid hits removed. -/
theorem searchASite_nonempty_fields :
    (∀ (o : SiteOutcome), ∀ r ∈ searchASite o, r.title ≠ "" ∧ r.url ≠ "") ∧
    (∀ hits : List RawHit,
      searchASite (SiteOutcome.ok hits) =
        searchASite (SiteOutcome.ok
          (hits.filter fun h => decide (h.url ≠ "" ∧ h.title ≠ "")))) := by
  constructor
  · intro o r hr
    cases o with
    | err => cases hr
    | ok hits =>
      simp only [searchASite, normalizeHits, List.mem_filterMap] at hr
      obtain ⟨h, hh, hsome⟩ := hr
      by_cases hc : h.url ≠ "" ∧ h.title ≠ ""
      · rw [if_pos hc] at hsome
        injection hsome with heq
        rw [← heq]
        exact ⟨pyTitle_pyLower_ne_empty hc.2, hc.1⟩
      · rw [if_neg hc] at hsome
        cases hsome
  · intro hits
    simp only [searchASite]
    rw [normalizeHits_eq_map_filter, normalizeHits_eq_map_filter,
      List.filter_filter]
    simp only [Bool.and_self]

/-- Witness for C9: a concrete valid hit produces a result with non-empty
fields. -/
theorem searchASite_nonempty_fields_witness :
    (({ title := "A", url := "u" } : SearchResult)
        ∈ searchASite (SiteOutcome.ok [{ title := "a", url := "u" }])) ∧
    (({ title := "A", url := "u" } : SearchResult).title ≠ "" ∧
      ({ title := "A", url := "u" } : SearchResult).url ≠ "") := by
  have h := searchASite_nonempty_fields.1 (SiteOutcome.ok [{ title := "a", url := "u" }])
    { title := "A", url := "u" } (by decide)
  exact ⟨by decide, h⟩

/-- Claim C3: a per-source task that raises contributes exactly zero
results (`searchASite` of `err` is `[]`, and the accumulated result list
is unchanged when the erring tasks are removed), no error escapes
(`search_novels` is a total function: the source wraps both the task body
and the `future.result()` call in catch-all handlers), and an erring task
does not prevent the session from reaching progress 100 nor from
returning the aggregation of the remaining sources' results. -/
theorem searchASite_error_isolated
    (hostname : String → Option String) (crawler_list : String → Option Nat)
    (outcome : String → SiteOutcome) (completed : List (String × Nat)) (app : App) :
    searchASite SiteOutcome.err = [] ∧
    collectedResults outcome completed =
      collectedResults outcome
        (completed.filter fun t => decide (outcome t.1 ≠ SiteOutcome.err)) ∧
    (¬(app.crawler_links = [] ∨ app.user_input = "") →
      completed.Perm (dedupTasks (resolveCrawler hostname crawler_list)
        app.crawler_links []) →
      dedupTasks (resolveCrawler hostname crawler_list) app.crawler_links [] ≠ [] →
      (search_novels hostname crawler_list outcome completed app).search_progress = 100 ∧
      (search_novels hostname crawler_list outcome completed app).search_results =
        aggregate app.user_input (collectedResults outcome
          (completed.filter fun t => decide (outcome t.1 ≠ SiteOutcome.err)))) := by
  refine ⟨rfl, collectedResults_filter_err outcome completed, ?_⟩
  intro hguard hperm hne
  unfold search_novels
  rw [if_neg hguard]
  constructor
  · show progressAfter
      (dedupTasks (resolveCrawler hostname crawler_list) app.crawler_links []).length
      completed.length = 100
    rw [hperm.length_eq]
    exact progressAfter_total_eq fun h => hne (List.length_eq_zero.1 h)
  · show aggregate app.user_input (collectedResults outcome completed) = _
    rw [collectedResults_filter_err outcome completed]

/-- Witness for C3: one dispatched task whose crawler raises on every
call still yields a session with progress 100. -/
theorem searchASite_error_isolated_witness :
    (¬((["l"] : List String) = [] ∨ ("q" : String) = "")) ∧
    (search_novels (fun _ => some "h") (fun _ => some 0) (fun _ => SiteOutcome.err)
      [("l", 0)]
      { user_input := "q", crawler_links := ["l"], search_progress := 0,
        search_results := [] }).search_progress = 100 := by
  have h := (searchASite_error_isolated (fun _ => some "h") (fun _ => some 0)
      (fun _ => SiteOutcome.err) [("l", 0)]
      { user_input := "q", crawler_links := ["l"], search_progress := 0,
        search_results := [] }).2.2 (by decide) (by decide) (by decide)
  exact ⟨by decide, h.1⟩

/-- Claim C4 (amended): within a session the progress values are
non-decreasing (the whole trace, from the initial 0 through the updates
`100 * completed / total`, is a `≤`-chain), and once all dispatched tasks
have completed the progress is exactly 100 — provided at least one task
was dispatched.  With zero dispatched tasks (every link unresolved), the
loop body never runs and the progress stays at 0, not 100 (see the
counterexample). -/
theorem search_progress_monotone_and_complete
    (hostname : String → Option String) (crawler_list : String → Option Nat)
    (outcome : String → SiteOutcome) (completed : List (String × Nat)) (app : App)
    (total : Nat) :
    List.Chain' (· ≤ ·) (progressTrace total) ∧
    (∀ k, progressAfter total k ≤ progressAfter total (k + 1)) ∧
    (¬(app.crawler_links = [] ∨ app.user_input = "") →
      completed.Perm (dedupTasks (resolveCrawler hostname crawler_list)
        app.crawler_links []) →
      dedupTasks (resolveCrawler hostname crawler_list) app.crawler_links [] ≠ [] →
      (search_novels hostname crawler_list outcome completed app).search_progress
        = 100) := by
  refine ⟨progressTrace_chain total, progressAfter_mono total, ?_⟩
  intro hguard hperm hne
  unfold search_novels
  rw [if_neg hguard]
  show progressAfter
    (dedupTasks (resolveCrawler hostname crawler_list) app.crawler_links []).length
    completed.length = 100
  rw [hperm.length_eq]
  exact progressAfter_total_eq fun h => hne (List.length_eq_zero.1 h)

/-- Witness for C4 (amended): a session with one resolved link finishes
with progress exactly 100. -/
theorem search_progress_monotone_and_complete_witness :
    (¬((["m"] : List String) = [] ∨ ("cats" : String) = "")) ∧
    (search_novels (fun _ => some "host") (fun _ => some 3)
      (fun _ => SiteOutcome.ok []) [("m", 3)]
      { user_input := "cats", crawler_links := ["m"], search_progress := 0,
        search_results := [] }).search_progress = 100 := by
  have h := (search_progress_monotone_and_complete (fun _ => some "host")
      (fun _ => some 3) (fun _ => SiteOutcome.ok []) [("m", 3)]
      { user_input := "cats", crawler_links := ["m"], search_progress := 0,
        search_results := [] } 1).2.2 (by decide) (by decide) (by decide)
  exact ⟨by decide, h⟩

/-- Counterexample to claim C4 as stated ("for every number of dispatched
tasks, including zero"): with a non-empty query and one link that resolves
to no crawler, zero tasks are dispatched, all (zero) tasks have completed,
and the final progress is 0, not 100 — the initial assignment
`app.search_progress = 0` is never overwritten because the completion
loop has no iterations. -/
theorem search_progress_zero_tasks_counterexample :
    dedupTasks (resolveCrawler (fun _ => some "unknown.example") (fun _ => none))
        ["https://unknown.example/x"] [] = [] ∧
    (search_novels (fun _ => some "unknown.example") (fun _ => none)
      (fun _ => SiteOutcome.ok []) []
      { user_input := "abc", crawler_links := ["https://unknown.example/x"],
        search_progress := 0, search_results := [] }).search_progress = 0 ∧
    (search_novels (fun _ => some "unknown.example") (fun _ => none)
      (fun _ => SiteOutcome.ok []) []
      { user_input := "abc", crawler_links := ["https://unknown.example/x"],
        search_progress := 0, search_results := [] }).search_progress ≠ 100 := by
  refine ⟨by decide, by decide, by decide⟩

/-- Claim C5: the aggregator builds exactly one `CombinedSearchResult` per
retained slug key (the ids are pairwise distinct), and for each of them:
the members are precisely the valid collected results with that slug key
(as a multiset), sorted ascending by url, the group is non-empty, its
representative title is the first sorted member's title, and that member
has the smallest url in the group. -/
theorem groupResults_combined_structure (rs : List SearchResult) :
    ((groupResults rs).map (fun x => x.id)).Nodup ∧
    ∀ x ∈ groupResults rs,
      x.novels.Perm ((validResults rs).filter fun r => decide (slugify r.title = x.id)) ∧
      List.Sorted urlLe x.novels ∧
      x.novels ≠ [] ∧
      x.title = x.novels.headI.title ∧
      ∀ r ∈ x.novels, x.novels.headI.url.toList ≤ r.url.toList := by
  constructor
  · rw [groupResults_ids]
    exact nodup_dedupFirst _
  · intro x hx
    obtain ⟨hid, hnov, htit⟩ := mem_groupResults hx
    have hne : groupOf rs x.id ≠ [] := groupOf_ne_nil hid
    refine ⟨?_, ?_, ?_, ?_, ?_⟩
    · rw [hnov]
      exact groupOf_perm_filter rs x.id
    · rw [hnov]
      exact groupOf_sorted rs x.id
    · rw [hnov]
      exact hne
    · rw [htit, hnov]
    · rw [hnov]
      exact sorted_head_min (groupOf_sorted rs x.id) hne

/-- Witness for C5: two same-titled results at urls `b` and `a` are
merged into a single group sorted by url with representative title from
url `a`. -/
theorem groupResults_combined_structure_witness :
    (({ id := "my-book", title := "My Book",
        novels := [{ title := "My Book", url := "a" }, { title := "My Book", url := "b" }] }
        : CombinedSearchResult)
      ∈ groupResults [{ title := "My Book", url := "b" }, { title := "My Book", url := "a" }]) ∧
    (({ id := "my-book", title := "My Book",
        novels := [{ title := "My Book", url := "a" }, { title := "My Book", url := "b" }] }
        : CombinedSearchResult).novels.Perm
      ((validResults [{ title := "My Book", url := "b" }, { title := "My Book", url := "a" }]).filter
        fun r => decide (slugify r.title = "my-book"))) := by
  have h := (groupResults_combined_structure
      [{ title := "My Book", url := "b" }, { title := "My Book", url := "a" }]).2
    { id := "my-book", title := "My Book",
      novels := [{ title := "My Book", url := "a" }, { title := "My Book", url := "b" }] }
    (by decide)
  exact ⟨by decide, h.1⟩

/-- Claim C6: the final output is the combined groups sorted ascending by
the composite key `(-size, -ratio)` and truncated to the first 10, so the
output never exceeds 10 entries, consecutive entries are ordered by the
composite key — larger groups first, and at equal size the title more
similar to the query first — and the similarity is a sequence-similarity
ratio lying in `[0, 1]`. -/
theorem aggregate_ranking_truncation (query : String) (rs : List SearchResult) :
    (aggregate query rs).length ≤ 10 ∧
    aggregate query rs = (List.insertionSort (rankLe query) (groupResults rs)).take 10 ∧
    List.Sorted (rankLe query) (aggregate query rs) ∧
    List.Sorted (fun x y : CombinedSearchResult => y.novels.length ≤ x.novels.length)
      (aggregate query rs) ∧
    (∀ x y : CombinedSearchResult, rankLe query x y ↔
      (y.novels.length < x.novels.length ∨
        (x.novels.length = y.novels.length ∧ ratio y.title query ≤ ratio x.title query))) ∧
    (∀ sa sb : String, 0 ≤ ratio sa sb ∧ ratio sa sb ≤ 1) := by
  have hsorted : List.Sorted (rankLe query) (aggregate query rs) :=
    (List.sorted_insertionSort (rankLe query) (groupResults rs)).sublist
      (List.take_sublist _ _)
  refine ⟨List.length_take_le _ _, rfl, hsorted, hsorted.imp (fun h => rankLe_size h),
    ?_, fun sa sb => ⟨ratio_nonneg sa sb, ratio_le_one sa sb⟩⟩
  intro x y
  simp only [rankLe, pairLe, rankKey, neg_lt_neg_iff, neg_inj, neg_le_neg_iff,
    Nat.cast_lt, Nat.cast_inj]

/-- Claim C7: a result whose slug key is at most 2 characters long is
dropped before grouping, so every member of every group has a slug key
longer than 2 characters equal to the group id, and in particular every
id in the final output is longer than 2 characters. -/
theorem aggregate_id_length_gt_two (query : String) (rs : List SearchResult) :
    (∀ x ∈ aggregate query rs, 2 < x.id.length) ∧
    (∀ x ∈ groupResults rs, ∀ r ∈ x.novels,
      2 < (slugify r.title).length ∧ slugify r.title = x.id) := by
  constructor
  · intro x hx
    have hx1 : x ∈ List.insertionSort (rankLe query) (groupResults rs) :=
      List.take_subset _ _ hx
    have hx2 : x ∈ groupResults rs := by
      rwa [List.mem_insertionSort] at hx1
    obtain ⟨hid, -, -⟩ := mem_groupResults hx2
    rw [List.mem_map] at hid
    obtain ⟨r, hr, hslug⟩ := hid
    rw [← hslug]
    exact (mem_validResults hr).2.2
  · intro x hx r hr
    obtain ⟨-, hnov, -⟩ := mem_groupResults hx
    rw [hnov, groupOf, List.mem_insertionSort, List.mem_filter] at hr
    obtain ⟨hrv, hslug⟩ := hr
    rw [decide_eq_true_eq] at hslug
    exact ⟨(mem_validResults hrv).2.2, hslug⟩

/-- Witness for C7: a concrete aggregation output whose only id has
length 7 > 2. -/
theorem aggregate_id_length_gt_two_witness :
    (({ id := "my-book", title := "My Book", novels := [{ title := "My Book", url := "u" }] }
        : CombinedSearchResult)
      ∈ aggregate "q" [{ title := "My Book", url := "u" }]) ∧
    2 < ({ id := "my-book", title := "My Book",
           novels := [{ title := "My Book", url := "u" }] }
        : CombinedSearchResult).id.length := by
  refine ⟨by decide, ?_⟩
  exact (aggregate_id_length_gt_two "q" [{ title := "My Book", url := "u" }]).1 _ (by decide)

/-- Claim C10: the stored title of every canonical result is the raw
title lowercased and then title-cased (`title.lower().title()`), the
composite ranking key is computed from that transformed title, and every
member title reaching the final output originates, via the transform,
from a raw hit of one of the completed tasks. -/
theorem searchASite_title_transform :
    (∀ hits : List RawHit,
      searchASite (SiteOutcome.ok hits) =
        (hits.filter fun h => decide (h.url ≠ "" ∧ h.title ≠ "")).map
          (fun h => { title := pyTitle (pyLower h.title), url := h.url })) ∧
    (∀ (query : String) (x : CombinedSearchResult),
      rankKey query x = (-((x.novels.length : Nat) : ℚ), -(ratio x.title query))) ∧
    (∀ (outcome : String → SiteOutcome) (done : List (String × Nat)) (query : String),
      ∀ x ∈ aggregate query (collectedResults outcome done), ∀ r ∈ x.novels,
        ∃ t ∈ done, ∃ hits, outcome t.1 = SiteOutcome.ok hits ∧
          ∃ h ∈ hits, h.title ≠ "" ∧ r.title = pyTitle (pyLower h.title)) := by
  refine ⟨fun hits => by
      simpa only [searchASite] using normalizeHits_eq_map_filter hits,
    fun query x => rfl, ?_⟩
  intro outcome done query x hx r hr
  have hx1 : x ∈ List.insertionSort (rankLe query)
      (groupResults (collectedResults outcome done)) :=
    List.take_subset _ _ hx
  have hx2 : x ∈ groupResults (collectedResults outcome done) := by
    rwa [List.mem_insertionSort] at hx1
  obtain ⟨-, hnov, -⟩ := mem_groupResults hx2
  rw [hnov, groupOf, List.mem_insertionSort, List.mem_filter] at hr
  have hr3 : r ∈ collectedResults outcome done := (mem_validResults hr.1).1
  rw [collectedResults, List.mem_flatMap] at hr3
  obtain ⟨t, ht, hrt⟩ := hr3
  rcases ho : outcome t.1 with hits | _
  · rw [ho] at hrt
    simp only [searchASite, normalizeHits, List.mem_filterMap] at hrt
    obtain ⟨h, hh, hsome⟩ := hrt
    by_cases hc : h.url ≠ "" ∧ h.title ≠ ""
    · rw [if_pos hc] at hsome
      injection hsome with heq
      exact ⟨t, ht, hits, ho, h, hh, hc.2, by rw [← heq]⟩
    · rw [if_neg hc] at hsome
      cases hsome
  · rw [ho] at hrt
    cases hrt

/-- Witness for C10: the raw title `"my book"` at url `u1` becomes the
canonical title `"My Book"`, which is the member title in the final
output. -/
theorem searchASite_title_transform_witness :
    (({ id := "my-book", title := "My Book", novels := [{ title := "My Book", url := "u1" }] }
        : CombinedSearchResult)
      ∈ aggregate "book" (collectedResults
          (fun _ => SiteOutcome.ok [{ title := "my book", url := "u1" }]) [("l", 0)])) ∧
    (({ title := "My Book", url := "u1" } : SearchResult)
      ∈ ({ id := "my-book", title := "My Book",
           novels := [{ title := "My Book", url := "u1" }] }
          : CombinedSearchResult).novels) ∧
    (∃ t ∈ [("l", 0)], ∃ hits,
      (fun _ => SiteOutcome.ok [{ title := "my book", url := "u1" }]) t.1
        = SiteOutcome.ok hits ∧
      ∃ h ∈ hits, h.title ≠ "" ∧
        ({ title := "My Book", url := "u1" } : SearchResult).title
          = pyTitle (pyLower h.title)) := by
  have h := searchASite_title_transform.2.2
    (fun _ => SiteOutcome.ok [{ title := "my book", url := "u1" }]) [("l", 0)] "book"
    { id := "my-book", title := "My Book",
      novels := [{ title := "My Book", url := "u1" }] }
    (by decide)
    { title := "My Book", url := "u1" }
    (by decide)
  exact ⟨by decide, by decide, h⟩
